import Mathlib

/-
Verification development for the customGit object store
(`customGit.js`): a shallow embedding of its object
serialization/hashing, the staged-vs-permanent object partitions, the
stage/commit/branch/checkout operations and the tree differ, together
with theorems settling the specification claims C1..C10.

Modelling conventions:
* A JavaScript string is a list of Unicode code points (`JSStr`).
  `String.length` in JS counts UTF-16 code units (`utf16Len`); the bytes
  hashed and stored are the UTF-8 encoding (`utf8Len` counts them).
  File contents are taken to be valid UTF-8, so `Buffer.length` of a file
  equals `utf8Len` of its decoded string.
* SHA-1 is modelled as an injective digest of the exact serialization
  string (an ideal collision-free hash); its output uses only hex-alphabet
  code points (digits and `f`) so all downstream string handling
  (path sharding, splitting on `\0` and on spaces) behaves as with a real
  hex digest.
* zlib deflate/inflate are modelled as a lossless invertible codec
  (a two-byte header is prepended, mirroring the zlib magic bytes).
* A store partition (`.customGit/objects`, `.customGit/staging`) is a
  key/value map from full hash to stored bytes; writing a file at
  `<xx>/<rest>` is keyed by the whole hash `<xx><rest>`.  Ref files under
  `.customGit/` are a map keyed by the path relative to `.customGit`
  (e.g. `refs/heads/main`).
* Filesystem effects are explicit state passing; the working directory is
  an explicit tree value whose directory listings are lists in traversal
  order (JS `readdirSync` order / `Promise.all` completion order is a fixed
  but arbitrary listing order, which the model takes as the list order).
-/

set_option maxRecDepth 100000

namespace CustomGit

/-- A JavaScript string, as the list of its Unicode code points. -/
abbrev JSStr := List Nat

/-- Embed an ASCII/Unicode Lean string literal as a `JSStr`. -/
def str (s : String) : JSStr := s.data.map Char.toNat

/-- Number of UTF-16 code units of a code point (JS `String.length` counts these). -/
def utf16UnitLen (c : Nat) : Nat := if c < 0x10000 then 1 else 2

/-- Number of UTF-8 bytes of a code point. -/
def utf8ByteLen (c : Nat) : Nat :=
  if c < 0x80 then 1 else if c < 0x800 then 2 else if c < 0x10000 then 3 else 4

/-- JS `s.length`: UTF-16 code-unit count of the string. -/
def utf16Len (s : JSStr) : Nat := (s.map utf16UnitLen).sum

/-- Byte length of the UTF-8 encoding of the string. -/
def utf8Len (s : JSStr) : Nat := (s.map utf8ByteLen).sum

/-- Fuel-driven digit rendering: with fuel at least the number of digits,
renders `n` in decimal. -/
def natToStrAux : Nat → Nat → JSStr
  | 0, _ => []
  | fuel + 1, n => if n < 10 then [48 + n] else natToStrAux fuel (n / 10) ++ [48 + n % 10]

/-- Decimal rendering of a natural number (digit code points), as JS string
interpolation `${n}` renders a number. -/
def natToStr (n : Nat) : JSStr := natToStrAux (n + 1) n

/-- Whitespace test used by JS `String.trim` (the code points that occur here). -/
def isWS (c : Nat) : Bool := c = 32 || c = 10 || c = 13 || c = 9

/-- JS `String.trim`: strip whitespace from both ends. -/
def jsTrim (s : JSStr) : JSStr :=
  ((s.dropWhile isWS).reverse.dropWhile isWS).reverse

/-- JS `String.startsWith`. -/
def strStartsWith (pre s : JSStr) : Bool :=
  match pre, s with
  | [], _ => true
  | _ :: _, [] => false
  | a :: ps, b :: ss => a = b && strStartsWith ps ss

/-- JS `String.split(sep)` for a one-character separator. -/
def splitOnChar (sep : Nat) : JSStr → List JSStr
  | [] => [[]]
  | c :: rest =>
    match splitOnChar sep rest with
    | [] => [[c]]
    | g :: gs => if c = sep then [] :: g :: gs else (c :: g) :: gs

/-- Deduplication with an accumulator of already-seen keys. -/
def jsSetDedupAux (seen : List JSStr) : List JSStr → List JSStr
  | [] => []
  | x :: xs => if x ∈ seen then jsSetDedupAux seen xs else x :: jsSetDedupAux (x :: seen) xs

/-- JS `new Set(list)` iteration order: first occurrences, in order. -/
def jsSetDedup (l : List JSStr) : List JSStr := jsSetDedupAux [] l

/-- Modelled `createShaHash` (SHA-1 hex digest): an injective digest of the
exact serialization string.  Each code point is rendered in decimal followed
by a `f` (102) separator, so the output consists of hex-alphabet code points
only, like a real hex digest. -/
def createShaHash (s : JSStr) : JSStr :=
  s.flatMap (fun c => natToStr c ++ [102])

/-- Modelled `zlib.deflate`: lossless codec, prepends the zlib magic bytes. -/
def deflate (s : JSStr) : JSStr := 120 :: 156 :: s

/-- Modelled `zlib.inflate`, inverse of `deflate` on its image. -/
def inflate (s : JSStr) : JSStr := s.drop 2

/-- An object-store partition (or the refs directory): a map from key to
stored bytes.  A JS `fs.writeFileSync` overwrite is modelled by cons, with
`Store.lookup` returning the most recent binding. -/
abbrev Store := List (JSStr × JSStr)

/-- Look up a key in a store (most recent write wins). -/
def Store.lookup (s : Store) (k : JSStr) : Option JSStr :=
  match s with
  | [] => none
  | (k2, v) :: rest => if k2 = k then some v else Store.lookup rest k

/-- Write (create or overwrite) a key in a store. -/
def Store.insert (s : Store) (k v : JSStr) : Store := (k, v) :: s

/-- A key is present in a store. -/
def Store.mem (s : Store) (k : JSStr) : Prop := s.lookup k ≠ none

instance (s : Store) (k : JSStr) : Decidable (s.mem k) := by
  unfold Store.mem
  infer_instance

/-- `writeObject(hash, buffer)`: write an object file into the permanent
`objects` partition, keyed by its hash. -/
def writeObject (hash buffer : JSStr) (objects : Store) : Store :=
  objects.insert hash buffer

/-- `stageTreeObject(hash, buffer)`: write an object file into the
`staging` partition, keyed by its hash. -/
def stageTreeObject (hash buffer : JSStr) (staging : Store) : Store :=
  staging.insert hash buffer

/-- A directory listing of the working tree, in traversal order: each
element is a regular file (name, executable bit, contents) or a
subdirectory (name, children listing).  `writeTreeObject` in the source
only handles `isFile()` and `isDirectory()` results of `statSync` (which
follows symlinks), so these are the only entry kinds. -/
inductive FS : Type where
  | nilF : FS
  | consFile (name : JSStr) (executable : Bool) (content : JSStr) (rest : FS) : FS
  | consDir (name : JSStr) (children : FS) (rest : FS) : FS
deriving DecidableEq

/-- `getGitMode`: mode string from the stat results ("40000" for
directories, else "100755"/"100644" by the executable bit; the "120000"
symlink case is unreachable because `statSync` follows symlinks). -/
def getGitMode (isDirectory isExecutable : Bool) : JSStr :=
  if isDirectory then str "40000"
  else if isExecutable then str "100755" else str "100644"

/-- The immediate file entries of a listing (name, executable bit,
contents), used to state that two flat listings hold the same entries. -/
def FS.fileEntries : FS → List (JSStr × Bool × JSStr)
  | FS.nilF => []
  | FS.consFile name ex content rest => (name, ex, content) :: rest.fileEntries
  | FS.consDir _ _ rest => rest.fileEntries

/-- `shouldIgnore`: a relative path is ignored when it equals a pattern or
starts with a pattern followed by the path separator. -/
def shouldIgnore (patterns : List JSStr) (relativePath : JSStr) : Bool :=
  patterns.any (fun p => relativePath = p || strStartsWith (p ++ [47]) relativePath)

/-- `path.relative` of a child: the child name at the root, otherwise
parent relative path, `/`, name. -/
def joinRel (rel name : JSStr) : JSStr :=
  if rel.isEmpty then name else rel ++ [47] ++ name

/-- Blob serialization: `` `blob ${fileData.length}\x00${fileData}` ``.
`fileData.length` is the byte count of the file; for valid-UTF-8 contents
this is `utf8Len` of the decoded string. -/
def blobSerial (content : JSStr) : JSStr :=
  str "blob " ++ natToStr (utf8Len content) ++ [0] ++ content

/-- Tree serialization: `` `tree ${treeEntries.length}\x00` + treeEntries ``.
`treeEntries` is a JS string, so `.length` counts UTF-16 code units,
not bytes. -/
def treeSerial (body : JSStr) : JSStr :=
  str "tree " ++ natToStr (utf16Len body) ++ [0] ++ body

/-- Commit serialization, exactly as `writeCommitObject` builds it:
`tree <hash>\n` then optionally `parent <hash>\n` then `\n<message>\n`.
Note there is no `commit <length>\0` header. -/
def commitSerial (treeHash : JSStr) (parentHash : Option JSStr) (message : JSStr) : JSStr :=
  str "tree " ++ treeHash ++ [10] ++
  (match parentHash with
   | some p => str "parent " ++ p ++ [10]
   | none => []) ++
  [10] ++ message ++ [10]

/-- `writeBlobObject`: serialize the contents of a file as a blob, hash it,
compress it and write it via `writeObject` — into the permanent `objects`
partition.  Returns the hash and the updated partition. -/
def writeBlobObject (content : JSStr) (objects : Store) : JSStr × Store :=
  let serial := blobSerial content
  let hashHex := createShaHash serial
  (hashHex, writeObject hashHex (deflate serial) objects)

/-- The entry-accumulation loop of `writeTreeObject`: walk the listed
children of a directory, skipping ignored paths, writing the blob of each file
(into `objects`) and the tree of each subdirectory (into `staging`), and
concatenating the `"<mode> <name>\0<hash>"` entry strings in listing order.
Returns the accumulated `treeEntries` string and the updated partitions. -/
def writeTreeEntries (patterns : List JSStr) (rel : JSStr)
    (entries : FS) (objects staging : Store) : JSStr × Store × Store :=
  match entries with
  | FS.nilF => ([], objects, staging)
  | FS.consFile name ex content rest =>
    let childRel := joinRel rel name
    if shouldIgnore patterns childRel then
      writeTreeEntries patterns rel rest objects staging
    else
      let blobResult := writeBlobObject content objects
      let entry := getGitMode false ex ++ [32] ++ name ++ [0] ++ blobResult.1
      let restResult := writeTreeEntries patterns rel rest blobResult.2 staging
      (entry ++ restResult.1, restResult.2)
  | FS.consDir name children rest =>
    let childRel := joinRel rel name
    if shouldIgnore patterns childRel then
      writeTreeEntries patterns rel rest objects staging
    else
      -- recursive `writeTreeObject(currentPath)`: build the child tree,
      -- hash its serialization and stage it
      let childResult := writeTreeEntries patterns childRel children objects staging
      let serial := treeSerial childResult.1
      let childHash := createShaHash serial
      let staged := stageTreeObject childHash (deflate serial) childResult.2.2
      let entry := getGitMode true false ++ [32] ++ name ++ [0] ++ childHash
      let restResult := writeTreeEntries patterns rel rest childResult.2.1 staged
      (entry ++ restResult.1, restResult.2)

/-- `writeTreeObject(directory)`: build the tree body for a directory
listing, hash the tree serialization and write it into the `staging`
partition; returns the tree hash and the updated partitions. -/
def writeTreeObject (patterns : List JSStr) (rel : JSStr)
    (listing : FS) (objects staging : Store) :
    JSStr × Store × Store :=
  let r := writeTreeEntries patterns rel listing objects staging
  let serial := treeSerial r.1
  let hashHex := createShaHash serial
  (hashHex, r.2.1, stageTreeObject hashHex (deflate serial) r.2.2)

/-- `writeCommitObject`: build the commit serialization, hash it and write
it via `writeObject` into the permanent partition. -/
def writeCommitObject (treeHash : JSStr) (parentHash : Option JSStr)
    (commitMessage : JSStr) (objects : Store) : JSStr × Store :=
  let serial := commitSerial treeHash parentHash commitMessage
  let hashHex := createShaHash serial
  (hashHex, writeObject hashHex (deflate serial) objects)

/-- The parsed HEAD pointer: a symbolic branch reference (the ref path as
written after `ref: `) or a direct commit hash. -/
inductive HeadRef : Type where
  | branch : JSStr → HeadRef
  | commit : JSStr → HeadRef
deriving DecidableEq

/-- Repository state: the contents of the HEAD file, the ref files keyed by
path relative to `.customGit` (e.g. `refs/heads/main`), and the two object
partitions. -/
structure RepoState : Type where
  headFile : JSStr
  refs : Store
  objects : Store
  staging : Store
deriving DecidableEq

/-- `getHeadReference`: trim the HEAD file; a line starting with `ref:`
names a branch (second space-separated token), otherwise the line is a
commit hash.  (If there is no second token, JS yields `undefined`;
modelled as the empty string — unreachable for files this program writes.) -/
def getHeadReference (headFile : JSStr) : HeadRef :=
  let headContent := jsTrim headFile
  if strStartsWith (str "ref:") headContent then
    HeadRef.branch ((splitOnChar 32 headContent).getD 1 [])
  else
    HeadRef.commit headContent

/-- `updateHeadToBranch`: the HEAD file contents written for a branch. -/
def updateHeadToBranch (branchName : JSStr) : JSStr :=
  str "ref: refs/heads/" ++ branchName ++ [10]

/-- `updateHeadToCommit`: the HEAD file contents written for a commit. -/
def updateHeadToCommit (commitHash : JSStr) : JSStr :=
  commitHash ++ [10]

/-- The commit hash HEAD resolves to, following a symbolic HEAD through
the named branch file, exactly as `createBranch` resolves it; `none` when
HEAD names a branch whose ref file does not exist. -/
def headCommitOf (s : RepoState) : Option JSStr :=
  match getHeadReference s.headFile with
  | HeadRef.commit h => some h
  | HeadRef.branch r =>
    match s.refs.lookup r with
    | some content => some (jsTrim content)
    | none => none

/-- The ignore patterns `initRepository` writes to `.customIgnore`. -/
def defaultPatterns : List JSStr := [str ".customGit", str ".git"]

/-- The empty tree serialization `"tree 0\0"` written by `initRepository`. -/
def emptyTreeSerial : JSStr := str "tree 0" ++ [0]

/-- The initial commit serialization written by `initRepository`:
`` `tree ${emptyTreeHash}\n\nInitial commit\n` ``. -/
def initialCommitSerial : JSStr :=
  str "tree " ++ createShaHash emptyTreeSerial ++ [10, 10] ++ str "Initial commit" ++ [10]

/-- The repository state `initRepository` creates: the empty tree and the
initial commit in the permanent partition, `refs/heads/main` at the initial
commit, HEAD symbolic to main, staging empty. -/
def initState : RepoState :=
  { headFile := str "ref: refs/heads/main" ++ [10]
    refs := Store.insert [] (str "refs/heads/main")
      (createShaHash initialCommitSerial ++ [10])
    objects :=
      writeObject (createShaHash initialCommitSerial) (deflate initialCommitSerial)
        (writeObject (createShaHash emptyTreeSerial) (deflate emptyTreeSerial) [])
    staging := [] }

/-- `stageWorkingTree`: run `writeTreeObject` over the working directory
root (blobs go to the permanent partition, trees to staging) and return
the root tree hash.  The subsequent `readTreeObject` call only logs. -/
def stageWorkingTree (patterns : List JSStr) (workdir : FS)
    (s : RepoState) : JSStr × RepoState :=
  let r := writeTreeObject patterns [] workdir s.objects s.staging
  (r.1, { s with objects := r.2.1, staging := r.2.2 })

/-- The ternary `head.type === "commit" ? head.hash : null` selecting the
parent hash in `commitStagedFiles`. -/
def commitParentOf : HeadRef → Option JSStr
  | HeadRef.commit h => some h
  | HeadRef.branch _ => none

/-- `commitStagedFiles`: fail (printing "No files to commit", no writes)
when the staging directory is empty; otherwise move every staged file into
the permanent partition (overwriting on collision), read HEAD, re-run
`writeTreeObject` over the working directory (blobs into the permanent
partition, trees into the now-empty staging directory), delete the staging
directory (discarding those fresh tree objects) and recreate it empty,
write the commit object (parent = the hash held by HEAD when HEAD is a direct commit
hash, `null` when HEAD is symbolic), and overwrite HEAD with the new
commit hash. -/
def commitStagedFiles (patterns : List JSStr) (workdir : FS)
    (commitMessage : JSStr) (s : RepoState) : Option JSStr × RepoState :=
  if s.staging.isEmpty then
    (none, s)
  else
    let objects1 := s.staging ++ s.objects
    let head := getHeadReference s.headFile
    let treeResult := writeTreeObject patterns [] workdir objects1 []
    -- `fs.rmSync(STAGING_DIR)` then `mkdirSync`: the freshly staged tree
    -- objects (treeResult.2.2) are deleted; staging ends empty
    let parentHash := commitParentOf head
    let commitResult := writeCommitObject treeResult.1 parentHash commitMessage treeResult.2.1
    (some commitResult.1,
      { headFile := updateHeadToCommit commitResult.1
        refs := s.refs
        objects := commitResult.2
        staging := [] })

/-- Result of `createBranch` (errors are reported via `console.error`). -/
inductive BranchResult : Type where
  | ok : JSStr → BranchResult
  | branchExists : BranchResult
  | unresolvableHead : BranchResult
deriving DecidableEq

/-- `createBranch(branchName)`: fail when the branch file already exists;
otherwise resolve HEAD (directly, or through the named branch file,
failing when that file is missing) and write the new branch file with the
resolved commit hash. -/
def createBranch (branchName : JSStr) (s : RepoState) : BranchResult × RepoState :=
  let branchPath := str "refs/heads/" ++ branchName
  match s.refs.lookup branchPath with
  | some _ => (BranchResult.branchExists, s)
  | none =>
    match getHeadReference s.headFile with
    | HeadRef.commit h =>
      (BranchResult.ok h, { s with refs := s.refs.insert branchPath (h ++ [10]) })
    | HeadRef.branch r =>
      match s.refs.lookup r with
      | some content =>
        let commitHash := jsTrim content
        (BranchResult.ok commitHash,
          { s with refs := s.refs.insert branchPath (commitHash ++ [10]) })
      | none => (BranchResult.unresolvableHead, s)

/-- Result of `checkoutBranch`. -/
inductive CheckoutResult : Type where
  | ok : CheckoutResult
  | branchNotFound : CheckoutResult
deriving DecidableEq

/-- `checkoutBranch(branchName)` (the second, effective definition in the
source): fail when the branch file does not exist; otherwise overwrite HEAD
with a symbolic reference to the branch.  The branch file is then read but
only logged; no other state changes. -/
def checkoutBranch (branchName : JSStr) (s : RepoState) : CheckoutResult × RepoState :=
  match s.refs.lookup (str "refs/heads/" ++ branchName) with
  | none => (CheckoutResult.branchNotFound, s)
  | some _ => (CheckoutResult.ok, { s with headFile := updateHeadToBranch branchName })

/-- JS `Map.set`: replace the value in place when the key exists, else
append; preserves first-insertion iteration order. -/
def mapSet (m : List (JSStr × JSStr)) (k v : JSStr) : List (JSStr × JSStr) :=
  match m with
  | [] => [(k, v)]
  | (k2, v2) :: rest => if k2 = k then (k, v) :: rest else (k2, v2) :: mapSet rest k v

/-- The `parseTreeObject` helper of `compareTreeObjects`: read the object
file from the given partition, inflate it, split the string on `\0`,
drop the header (shift) and the trailing element (pop), and build the map
from the second space-token of each entry (the file name) to the first
space-token (the "mode" — for every entry after the first this token is
the child hash of the previous entry concatenated with the mode, since entries
are joined without a separator before the mode). -/
def parseTreeObject (store : Store) (hash : JSStr) :
    Option (List (JSStr × JSStr)) :=
  match store.lookup hash with
  | none => none
  | some file =>
    let uncompressed := inflate file
    let entries := ((splitOnChar 0 uncompressed).drop 1).dropLast
    some (entries.foldl (fun m entry =>
      let toks := splitOnChar 32 entry
      mapSet m (toks.getD 1 []) (toks.getD 0 [])) [])

/-- Status emitted by the tree differ. -/
inductive DiffStatus : Type where
  | added : DiffStatus
  | deleted : DiffStatus
  | modified : DiffStatus
deriving DecidableEq

/-- The per-name classification in the loop of `compareTreeObjects`:
`!tree1.has(file)` ⇒ added, `!tree2.has(file)` ⇒ deleted, differing stored
"mode" strings ⇒ modified, equal ⇒ no output. -/
def diffClassify (tree1 tree2 : List (JSStr × JSStr)) (f : JSStr) :
    Option (JSStr × DiffStatus) :=
  match Store.lookup tree1 f, Store.lookup tree2 f with
  | none, _ => some (f, DiffStatus.added)
  | some _, none => some (f, DiffStatus.deleted)
  | some m1, some m2 =>
    if m1 ≠ m2 then some (f, DiffStatus.modified) else none

/-- `compareTreeObjects(hash1, hash2)`: parse both trees from the given
partition, iterate the set union of their parsed names (first-occurrence
order) and classify each name. -/
def compareTreeObjects (store : Store) (hash1 hash2 : JSStr) :
    Option (List (JSStr × DiffStatus)) :=
  match parseTreeObject store hash1, parseTreeObject store hash2 with
  | some tree1, some tree2 =>
    let allFiles := jsSetDedup (tree1.map Prod.fst ++ tree2.map Prod.fst)
    some (allFiles.filterMap (diffClassify tree1 tree2))
  | _, _ => none

/-- The tree serialization the specification claims (C5): the declared
length is the byte length of the body.  Differs from `treeSerial`, which
uses the UTF-16 code-unit count. -/
def claimTreeSerial (body : JSStr) : JSStr :=
  str "tree " ++ natToStr (utf8Len body) ++ [0] ++ body

/-- The commit serialization the specification claims (C5): a
`commit <byte-length>\0` header followed by the commit body.  The code
stores the bare body with no header. -/
def claimCommitSerial (treeHash : JSStr) (parentHash : Option JSStr)
    (message : JSStr) : JSStr :=
  let body := commitSerial treeHash parentHash message
  str "commit " ++ natToStr (utf8Len body) ++ [0] ++ body

/-! ### Helper lemmas about the string and store primitives -/

theorem Store.lookup_insert (s : Store) (k2 v k : JSStr) :
    (s.insert k2 v).lookup k = if k2 = k then some v else s.lookup k := rfl

theorem Store.mem_insert (s : Store) (k2 v k : JSStr) (h : s.mem k) :
    (s.insert k2 v).mem k := by
  by_cases hk : k2 = k
  · simp [Store.mem, Store.lookup_insert, hk]
  · simp only [Store.mem, Store.lookup_insert, if_neg hk]
    exact h

theorem Store.lookup_append_some (a b : Store) (k v : JSStr)
    (h : a.lookup k = some v) : (a ++ b).lookup k = some v := by
  induction a with
  | nil => simp [Store.lookup] at h
  | cons hd tl ih =>
    obtain ⟨k2, v2⟩ := hd
    by_cases hk : k2 = k <;> simp_all [Store.lookup]

theorem Store.mem_append_of_mem (a b : Store) (k : JSStr) (h : a.mem k) :
    (a ++ b).mem k := by
  simp only [Store.mem] at h ⊢
  cases hv : a.lookup k with
  | none => exact absurd hv h
  | some v => simp [Store.lookup_append_some a b k v hv]

theorem store_lookup_eq_none_iff (t : Store) (k : JSStr) :
    Store.lookup t k = none ↔ k ∉ t.map Prod.fst := by
  induction t with
  | nil => simp [Store.lookup]
  | cons hd tl ih =>
    obtain ⟨k2, v2⟩ := hd
    by_cases hk : k2 = k
    · simp [Store.lookup, hk]
    · have hk2 : ¬k = k2 := fun hcon => hk hcon.symm
      simp [Store.lookup, hk, hk2, ih]

theorem natToStrAux_digits (fuel : Nat) : ∀ n c, c ∈ natToStrAux fuel n → 48 ≤ c ∧ c ≤ 57 := by
  induction fuel with
  | zero => intro n c hc; simp [natToStrAux] at hc
  | succ fuel ih =>
    intro n c hc
    by_cases hn : n < 10
    · simp [natToStrAux, hn] at hc
      omega
    · simp [natToStrAux, hn] at hc
      rcases hc with hc | hc
      · exact ih (n / 10) c hc
      · have : n % 10 < 10 := Nat.mod_lt n (by omega)
        omega

theorem createShaHash_digits (s : JSStr) :
    ∀ c ∈ createShaHash s, (48 ≤ c ∧ c ≤ 57) ∨ c = 102 := by
  intro c hc
  simp only [createShaHash, List.mem_flatMap] at hc
  obtain ⟨a, _, hmem⟩ := hc
  rcases List.mem_append.mp hmem with hm | hm
  · exact Or.inl (natToStrAux_digits (a + 1) a c hm)
  · simp at hm
    exact Or.inr hm

theorem dropWhile_eq_self_of_forall (p : Nat → Bool) (l : JSStr)
    (h : ∀ c ∈ l, p c = false) : l.dropWhile p = l := by
  cases l with
  | nil => rfl
  | cons a t => simp [List.dropWhile_cons, h a (List.mem_cons_self a t)]

theorem jsTrim_append_newline (h : JSStr) (hc : ∀ c ∈ h, isWS c = false) :
    jsTrim (h ++ [10]) = h := by
  unfold jsTrim
  cases h with
  | nil => simp [isWS]
  | cons a t =>
    have ha : isWS a = false := hc a (List.mem_cons_self a t)
    rw [List.cons_append, List.dropWhile_cons, ha]
    simp only [Bool.false_eq_true, if_false]
    have hrev : ((a :: t) ++ [10]).reverse = 10 :: (a :: t).reverse := by
      simp
    rw [List.cons_append] at hrev
    rw [hrev, List.dropWhile_cons]
    have h10 : isWS 10 = true := rfl
    rw [h10]
    simp only [if_true]
    rw [dropWhile_eq_self_of_forall isWS ((a :: t).reverse)
      (by intro c hcm; exact hc c (List.mem_reverse.mp hcm))]
    simp

theorem strStartsWith_ref_false (h : JSStr)
    (hh : ∀ c ∈ h, (48 ≤ c ∧ c ≤ 57) ∨ c = 102) :
    strStartsWith (str "ref:") h = false := by
  have hs : str "ref:" = [114, 101, 102, 58] := by decide
  rw [hs]
  cases h with
  | nil => rfl
  | cons a t =>
    have := hh a (List.mem_cons_self a t)
    have hne : (114 = a) = False := by
      simp only [eq_iff_iff, iff_false]
      omega
    simp [strStartsWith, hne]

theorem getHeadReference_updateHeadToCommit (h : JSStr)
    (hh : ∀ c ∈ h, (48 ≤ c ∧ c ≤ 57) ∨ c = 102) :
    getHeadReference (updateHeadToCommit h) = HeadRef.commit h := by
  have hws : ∀ c ∈ h, isWS c = false := by
    intro c hc
    rcases hh c hc with hr | hr <;> simp only [isWS] <;>
      simp only [Bool.or_eq_false_iff, decide_eq_false_iff_not] <;> omega
  simp only [getHeadReference, updateHeadToCommit]
  rw [jsTrim_append_newline h hws, strStartsWith_ref_false h hh]
  simp

theorem getHeadReference_hash_of_commit (serial : JSStr) :
    getHeadReference (updateHeadToCommit (createShaHash serial)) =
      HeadRef.commit (createShaHash serial) :=
  getHeadReference_updateHeadToCommit _ (createShaHash_digits serial)

theorem mem_jsSetDedupAux (l : List JSStr) :
    ∀ seen a, a ∈ jsSetDedupAux seen l ↔ a ∈ l ∧ a ∉ seen := by
  induction l with
  | nil => intro seen a; simp [jsSetDedupAux]
  | cons x xs ih =>
    intro seen a
    by_cases hx : x ∈ seen
    · simp only [jsSetDedupAux, if_pos hx, ih]
      constructor
      · rintro ⟨ha, hs⟩; exact ⟨List.mem_cons_of_mem x ha, hs⟩
      · rintro ⟨ha, hs⟩
        rcases List.mem_cons.mp ha with rfl | ha
        · exact absurd hx hs
        · exact ⟨ha, hs⟩
    · simp only [jsSetDedupAux, if_neg hx]
      constructor
      · intro ha
        rcases List.mem_cons.mp ha with rfl | ha
        · exact ⟨List.mem_cons_self _ _, hx⟩
        · obtain ⟨h1, h2⟩ := (ih (x :: seen) a).mp ha
          refine ⟨List.mem_cons_of_mem x h1, ?_⟩
          intro hcon
          exact h2 (List.mem_cons_of_mem x hcon)
      · rintro ⟨ha, hs⟩
        rcases List.mem_cons.mp ha with rfl | ha
        · exact List.mem_cons_self _ _
        · by_cases hax : a = x
          · subst hax; exact List.mem_cons_self _ _
          · exact List.mem_cons_of_mem x ((ih (x :: seen) a).mpr
              ⟨ha, by simp [hax, hs]⟩)

theorem mem_jsSetDedup (l : List JSStr) (a : JSStr) :
    a ∈ jsSetDedup l ↔ a ∈ l := by
  simp [jsSetDedup, mem_jsSetDedupAux]

theorem nodup_jsSetDedupAux (l : List JSStr) :
    ∀ seen, (jsSetDedupAux seen l).Nodup := by
  induction l with
  | nil => intro seen; simp [jsSetDedupAux]
  | cons x xs ih =>
    intro seen
    by_cases hx : x ∈ seen
    · simpa [jsSetDedupAux, hx] using ih seen
    · simp only [jsSetDedupAux, if_neg hx, List.nodup_cons]
      refine ⟨?_, ih (x :: seen)⟩
      intro hcon
      exact ((mem_jsSetDedupAux xs (x :: seen) x).mp hcon).2 (List.mem_cons_self _ _)

theorem nodup_jsSetDedup (l : List JSStr) : (jsSetDedup l).Nodup :=
  nodup_jsSetDedupAux l []

/-! ### Invariants of the tree builder -/

/-- Everything `writeTreeEntries` adds to the permanent partition is a
blob object stored at the hash of its own serialization. -/
theorem writeTreeEntries_objects_new (patterns : List JSStr) (entries : FS) :
    ∀ rel objects staging k v,
      ((writeTreeEntries patterns rel entries objects staging).2.1).lookup k = some v →
      objects.lookup k = some v ∨
      ∃ content, k = createShaHash (blobSerial content) ∧ v = deflate (blobSerial content) := by
  induction entries with
  | nilF =>
    intro rel objects staging k v hv
    exact Or.inl hv
  | consFile name ex content rest ih =>
    intro rel objects staging k v hv
    by_cases hig : shouldIgnore patterns (joinRel rel name)
    · rw [writeTreeEntries, if_pos hig] at hv
      exact ih rel objects staging k v hv
    · rw [writeTreeEntries, if_neg hig] at hv
      simp only at hv
      rcases ih rel _ staging k v hv with hold | hnew
      · simp only [writeBlobObject, writeObject, Store.lookup_insert] at hold
        by_cases hk : createShaHash (blobSerial content) = k
        · rw [if_pos hk] at hold
          exact Or.inr ⟨content, hk.symm, (Option.some.injEq _ _ ▸ hold).symm⟩
        · rw [if_neg hk] at hold
          exact Or.inl hold
      · exact Or.inr hnew
  | consDir name children rest ihc ihr =>
    intro rel objects staging k v hv
    by_cases hig : shouldIgnore patterns (joinRel rel name)
    · rw [writeTreeEntries, if_pos hig] at hv
      exact ihr rel objects staging k v hv
    · rw [writeTreeEntries, if_neg hig] at hv
      simp only at hv
      rcases ihr rel _ _ k v hv with hmid | hnew
      · exact ihc (joinRel rel name) objects staging k v hmid
      · exact Or.inr hnew

/-- Everything `writeTreeEntries` adds to the staging partition is a tree
object stored at the hash of its own serialization. -/
theorem writeTreeEntries_staging_new (patterns : List JSStr) (entries : FS) :
    ∀ rel objects staging k v,
      ((writeTreeEntries patterns rel entries objects staging).2.2).lookup k = some v →
      staging.lookup k = some v ∨
      ∃ body, k = createShaHash (treeSerial body) ∧ v = deflate (treeSerial body) := by
  induction entries with
  | nilF =>
    intro rel objects staging k v hv
    exact Or.inl hv
  | consFile name ex content rest ih =>
    intro rel objects staging k v hv
    by_cases hig : shouldIgnore patterns (joinRel rel name)
    · rw [writeTreeEntries, if_pos hig] at hv
      exact ih rel objects staging k v hv
    · rw [writeTreeEntries, if_neg hig] at hv
      simp only at hv
      exact ih rel _ staging k v hv
  | consDir name children rest ihc ihr =>
    intro rel objects staging k v hv
    by_cases hig : shouldIgnore patterns (joinRel rel name)
    · rw [writeTreeEntries, if_pos hig] at hv
      exact ihr rel objects staging k v hv
    · rw [writeTreeEntries, if_neg hig] at hv
      simp only at hv
      rcases ihr rel _ _ k v hv with hmid | hnew
      · simp only [stageTreeObject, Store.lookup_insert] at hmid
        by_cases hk : createShaHash
            (treeSerial (writeTreeEntries patterns (joinRel rel name) children objects staging).1) = k
        · rw [if_pos hk] at hmid
          exact Or.inr ⟨_, hk.symm, (Option.some.injEq _ _ ▸ hmid).symm⟩
        · rw [if_neg hk] at hmid
          exact ihc (joinRel rel name) objects staging k v hmid
      · exact Or.inr hnew

/-- `writeTreeEntries` never removes a key from the permanent partition. -/
theorem writeTreeEntries_objects_mono (patterns : List JSStr) (entries : FS) :
    ∀ rel objects staging k, objects.mem k →
      ((writeTreeEntries patterns rel entries objects staging).2.1).mem k := by
  induction entries with
  | nilF =>
    intro rel objects staging k hk
    exact hk
  | consFile name ex content rest ih =>
    intro rel objects staging k hk
    by_cases hig : shouldIgnore patterns (joinRel rel name)
    · rw [writeTreeEntries, if_pos hig]
      exact ih rel objects staging k hk
    · rw [writeTreeEntries, if_neg hig]
      simp only
      exact ih rel _ staging k (Store.mem_insert _ _ _ _ hk)
  | consDir name children rest ihc ihr =>
    intro rel objects staging k hk
    by_cases hig : shouldIgnore patterns (joinRel rel name)
    · rw [writeTreeEntries, if_pos hig]
      exact ihr rel objects staging k hk
    · rw [writeTreeEntries, if_neg hig]
      simp only
      exact ihr rel _ _ k (ihc (joinRel rel name) objects staging k hk)

theorem utf16Len_eq_utf8Len_of_ascii (body : JSStr) (h : ∀ c ∈ body, c < 128) :
    utf16Len body = utf8Len body := by
  unfold utf16Len utf8Len
  induction body with
  | nil => rfl
  | cons a t ih =>
    have ha : a < 128 := h a (List.mem_cons_self a t)
    have h16 : utf16UnitLen a = 1 := by
      unfold utf16UnitLen; rw [if_pos (by omega)]
    have h8 : utf8ByteLen a = 1 := by
      unfold utf8ByteLen; rw [if_pos (by omega)]
    simp only [List.map_cons, List.sum_cons, h16, h8]
    rw [ih (fun c hc => h c (List.mem_cons_of_mem a hc))]

/-! ### Classification lemmas for the tree differ -/

theorem diffClassify_eq_added (t1 t2 : List (JSStr × JSStr)) (f n : JSStr) :
    diffClassify t1 t2 f = some (n, DiffStatus.added) ↔
      f = n ∧ Store.lookup t1 f = none := by
  unfold diffClassify
  cases h1 : Store.lookup t1 f with
  | none => simp
  | some m1 =>
    cases h2 : Store.lookup t2 f with
    | none => simp
    | some m2 => by_cases hm : m1 ≠ m2 <;> simp [hm]

theorem diffClassify_eq_deleted (t1 t2 : List (JSStr × JSStr)) (f n : JSStr) :
    diffClassify t1 t2 f = some (n, DiffStatus.deleted) ↔
      f = n ∧ Store.lookup t1 f ≠ none ∧ Store.lookup t2 f = none := by
  unfold diffClassify
  cases h1 : Store.lookup t1 f with
  | none => simp
  | some m1 =>
    cases h2 : Store.lookup t2 f with
    | none => simp
    | some m2 => by_cases hm : m1 ≠ m2 <;> simp [hm]

theorem diffClassify_eq_modified (t1 t2 : List (JSStr × JSStr)) (f n : JSStr) :
    diffClassify t1 t2 f = some (n, DiffStatus.modified) ↔
      f = n ∧ ∃ v1 v2, Store.lookup t1 f = some v1 ∧ Store.lookup t2 f = some v2 ∧ v1 ≠ v2 := by
  unfold diffClassify
  cases h1 : Store.lookup t1 f with
  | none => simp
  | some m1 =>
    cases h2 : Store.lookup t2 f with
    | none => simp
    | some m2 =>
      by_cases hm : m1 ≠ m2 <;> simp [hm]

theorem diffClassify_fst (t1 t2 : List (JSStr × JSStr)) (f : JSStr)
    (b : JSStr × DiffStatus) (h : diffClassify t1 t2 f = some b) : b.1 = f := by
  obtain ⟨n, st⟩ := b
  cases st with
  | added => exact ((diffClassify_eq_added t1 t2 f n).mp h).1.symm
  | deleted => exact ((diffClassify_eq_deleted t1 t2 f n).mp h).1.symm
  | modified => exact ((diffClassify_eq_modified t1 t2 f n).mp h).1.symm

theorem nodup_map_fst_filterMap (f : JSStr → Option (JSStr × DiffStatus))
    (hf : ∀ a b, f a = some b → b.1 = a) :
    ∀ l : List JSStr, l.Nodup → ((l.filterMap f).map Prod.fst).Nodup := by
  intro l
  induction l with
  | nil => intro _; simp
  | cons a t ih =>
    intro hnd
    rw [List.nodup_cons] at hnd
    cases hfa : f a with
    | none =>
      rw [List.filterMap_cons_none hfa]
      exact ih hnd.2
    | some b =>
      rw [List.filterMap_cons_some hfa]
      simp only [List.map_cons, List.nodup_cons]
      refine ⟨?_, ih hnd.2⟩
      intro hcon
      obtain ⟨x, hx, hfst⟩ := List.mem_map.mp hcon
      obtain ⟨y, hy, hfy⟩ := List.mem_filterMap.mp hx
      rw [hf y x hfy] at hfst
      rw [hf a b hfa] at hfst
      rw [hfst] at hy
      exact hnd.1 hy

/-! ### Unfolding lemmas for stage and commit -/

theorem stageWorkingTree_headFile (patterns : List JSStr) (workdir : FS) (s : RepoState) :
    (stageWorkingTree patterns workdir s).2.headFile = s.headFile := rfl

theorem stageWorkingTree_staging_isEmpty (patterns : List JSStr) (workdir : FS)
    (s : RepoState) : (stageWorkingTree patterns workdir s).2.staging.isEmpty = false := rfl

/-- The full shape of a successful commit: the returned hash and every
component of the resulting state. -/
theorem commitStagedFiles_ne (patterns : List JSStr) (workdir : FS)
    (commitMessage : JSStr) (s : RepoState) (h : s.staging.isEmpty = false) :
    commitStagedFiles patterns workdir commitMessage s =
      (some (createShaHash (commitSerial
          (writeTreeObject patterns [] workdir (s.staging ++ s.objects) []).1
          (commitParentOf (getHeadReference s.headFile)) commitMessage)),
       { headFile := (updateHeadToCommit (createShaHash (commitSerial
            (writeTreeObject patterns [] workdir (s.staging ++ s.objects) []).1
            (commitParentOf (getHeadReference s.headFile)) commitMessage)))
         refs := s.refs
         objects := (Store.insert
            (writeTreeObject patterns [] workdir (s.staging ++ s.objects) []).2.1
            (createShaHash (commitSerial
              (writeTreeObject patterns [] workdir (s.staging ++ s.objects) []).1
              (commitParentOf (getHeadReference s.headFile)) commitMessage))
            (deflate (commitSerial
              (writeTreeObject patterns [] workdir (s.staging ++ s.objects) []).1
              (commitParentOf (getHeadReference s.headFile)) commitMessage)))
         staging := [] }) := by
  simp [commitStagedFiles, h, writeCommitObject, writeObject]

theorem commitStagedFiles_fst_none (patterns : List JSStr) (workdir : FS)
    (commitMessage : JSStr) (s : RepoState) (h : s.staging.isEmpty = true) :
    (commitStagedFiles patterns workdir commitMessage s).1 = none := by
  simp [commitStagedFiles, h]

/-! ### Concrete fixtures used in counterexamples and witnesses -/

/-- A one-file working directory: `a` containing `x`. -/
def sampleWd : FS := FS.consFile (str "a") false (str "x") FS.nilF

/-- The same path with different contents: `a` containing `y`. -/
def sampleWd2 : FS := FS.consFile (str "a") false (str "y") FS.nilF

/-- Two files `a`, `b` listed in the order `a` then `b`. -/
def sampleWdAB : FS :=
  FS.consFile (str "a") false (str "x") (FS.consFile (str "b") false (str "y") FS.nilF)

/-- The same two files listed in the order `b` then `a`. -/
def sampleWdBA : FS :=
  FS.consFile (str "b") false (str "y") (FS.consFile (str "a") false (str "x") FS.nilF)

/-- The repository state after `init` followed by staging `sampleWd`. -/
def sampleStaged : RepoState := (stageWorkingTree defaultPatterns sampleWd initState).2

/-! ### Claim theorems -/

/-- C1, counterexample: the claim says every object written by
stage-working-tree (Blob and Tree alike) goes to the staging partition and
is absent from the permanent partition until a commit promotes it.  In
fact `writeBlobObject` calls `writeObject`, so immediately after staging a
one-file working tree — with no commit having run — the blob object of the file
is present in the permanent partition (it was absent before). -/
theorem c1_staging_isolation_counterexample :
    Store.lookup initState.objects (createShaHash (blobSerial (str "x"))) = none ∧
    Store.lookup (stageWorkingTree defaultPatterns sampleWd initState).2.objects
      (createShaHash (blobSerial (str "x"))) = some (deflate (blobSerial (str "x"))) := by
  constructor
  · decide
  · decide

/-- C1, amended: during stage-working-tree, every object newly present in
the staging partition is a Tree object (stored at the hash of its tree
serialization) and every object newly present in the permanent partition
is a Blob object (stored at the hash of its blob serialization): Tree
objects go only to staging, while Blob objects are written directly to the
permanent partition. -/
theorem c1_staging_isolation_amended (patterns : List JSStr) (workdir : FS) (s : RepoState) :
    (∀ k v, Store.lookup (stageWorkingTree patterns workdir s).2.staging k = some v →
        Store.lookup s.staging k = some v ∨
        ∃ body, k = createShaHash (treeSerial body) ∧ v = deflate (treeSerial body)) ∧
    (∀ k v, Store.lookup (stageWorkingTree patterns workdir s).2.objects k = some v →
        Store.lookup s.objects k = some v ∨
        ∃ content, k = createShaHash (blobSerial content) ∧ v = deflate (blobSerial content)) := by
  constructor
  · intro k v hv
    simp only [stageWorkingTree, writeTreeObject, stageTreeObject, Store.lookup_insert] at hv
    by_cases hk : createShaHash
        (treeSerial (writeTreeEntries patterns [] workdir s.objects s.staging).1) = k
    · rw [if_pos hk] at hv
      exact Or.inr ⟨_, hk.symm, (Option.some.injEq _ _ ▸ hv).symm⟩
    · rw [if_neg hk] at hv
      exact writeTreeEntries_staging_new patterns workdir [] s.objects s.staging k v hv
  · intro k v hv
    simp only [stageWorkingTree, writeTreeObject] at hv
    exact writeTreeEntries_objects_new patterns workdir [] s.objects s.staging k v hv

/-- Witness for C1 (amended): instantiated at the one-file working tree,
discharging the lookup hypothesis by computation. -/
theorem c1_staging_isolation_amended_witness :
    Store.lookup initState.objects (createShaHash (blobSerial (str "x"))) =
        some (deflate (blobSerial (str "x"))) ∨
    ∃ content, createShaHash (blobSerial (str "x")) = createShaHash (blobSerial content) ∧
        deflate (blobSerial (str "x")) = deflate (blobSerial content) :=
  (c1_staging_isolation_amended defaultPatterns sampleWd initState).2
    (createShaHash (blobSerial (str "x"))) (deflate (blobSerial (str "x"))) (by decide)

/-- C2, counterexample: the claim says a commit with symbolic HEAD updates
the branch file HEAD names and leaves HEAD unchanged.  In the staged
initial repository HEAD is symbolic to `refs/heads/main`, the commit
succeeds, yet no ref file changes (in particular `refs/heads/main` does
not receive the new commit hash) and the HEAD file itself is overwritten. -/
theorem c2_ref_advance_counterexample :
    getHeadReference sampleStaged.headFile = HeadRef.branch (str "refs/heads/main") ∧
    (commitStagedFiles defaultPatterns sampleWd (str "m") sampleStaged).1.isSome = true ∧
    (commitStagedFiles defaultPatterns sampleWd (str "m") sampleStaged).2.refs =
      sampleStaged.refs ∧
    Store.lookup (commitStagedFiles defaultPatterns sampleWd (str "m") sampleStaged).2.refs
        (str "refs/heads/main") ≠
      some (((commitStagedFiles defaultPatterns sampleWd (str "m") sampleStaged).1.getD []) ++ [10]) ∧
    (commitStagedFiles defaultPatterns sampleWd (str "m") sampleStaged).2.headFile ≠
      sampleStaged.headFile := by
  refine ⟨by decide, by decide, by decide, by decide, by decide⟩

/-- C2, amended: every successful commit overwrites the HEAD file with the
new commit hash — regardless of whether HEAD was symbolic or a direct
hash — and never modifies any branch file. -/
theorem c2_ref_advance_amended (patterns : List JSStr) (workdir : FS)
    (commitMessage : JSStr) (s : RepoState) (h : s.staging ≠ []) :
    ∃ c, (commitStagedFiles patterns workdir commitMessage s).1 = some c ∧
      (commitStagedFiles patterns workdir commitMessage s).2.headFile = updateHeadToCommit c ∧
      (commitStagedFiles patterns workdir commitMessage s).2.refs = s.refs := by
  have hie : s.staging.isEmpty = false := by
    cases hs : s.staging with
    | nil => exact absurd hs h
    | cons a t => rfl
  simp only [commitStagedFiles, hie, Bool.false_eq_true, if_false]
  exact ⟨_, rfl, rfl, trivial⟩

/-- Witness for C2 (amended): the staged initial repository has nonempty
staging, so the commit succeeds and exhibits the overwrite. -/
theorem c2_ref_advance_amended_witness :
    ∃ c, (commitStagedFiles defaultPatterns sampleWd (str "m") sampleStaged).1 = some c ∧
      (commitStagedFiles defaultPatterns sampleWd (str "m") sampleStaged).2.headFile =
        updateHeadToCommit c ∧
      (commitStagedFiles defaultPatterns sampleWd (str "m") sampleStaged).2.refs =
        sampleStaged.refs :=
  c2_ref_advance_amended defaultPatterns sampleWd (str "m") sampleStaged (by decide)

/-- C5, counterexample: the claim says the uncompressed serialization of
every stored object is `"<type> <byte-length-of-body>\0<body>"`.  A commit
serialization carries no `commit <length>\0` header at all (it starts with
`tree `), and a tree body containing the non-ASCII name `é` is declared
with its UTF-16 code-unit count, which differs from its byte length. -/
theorem c5_serialization_counterexample :
    strStartsWith (str "commit ")
      (commitSerial (createShaHash emptyTreeSerial) none (str "m")) = false ∧
    treeSerial (str "100644 é" ++ [0] ++ createShaHash (blobSerial (str "x"))) ≠
      claimTreeSerial (str "100644 é" ++ [0] ++ createShaHash (blobSerial (str "x"))) := by
  constructor
  · decide
  · decide

/-- C5, amended: a Blob is stored at the hash of exactly
`"blob <byte-length>\0<content>"`; a Tree serialization
`"tree <n>\0<entries>"` declares the UTF-16 code-unit count of the entries
string, which equals the byte length exactly when the body is ASCII; a
Commit object is stored, at the hash of exactly its serialization, as the
bare body `"tree <hex>\n[parent <hex>\n]\n<message>\n"` with no
type/length header. -/
theorem c5_serialization_amended :
    (∀ content objects,
        (writeBlobObject content objects).1 = createShaHash (blobSerial content) ∧
        Store.lookup (writeBlobObject content objects).2 (createShaHash (blobSerial content)) =
          some (deflate (blobSerial content)) ∧
        blobSerial content = str "blob " ++ natToStr (utf8Len content) ++ [0] ++ content) ∧
    (∀ body, (∀ c ∈ body, c < 128) → treeSerial body = claimTreeSerial body) ∧
    (∀ treeHash parentHash message objects,
        (writeCommitObject treeHash parentHash message objects).1 =
          createShaHash (commitSerial treeHash parentHash message) ∧
        Store.lookup (writeCommitObject treeHash parentHash message objects).2
          (createShaHash (commitSerial treeHash parentHash message)) =
          some (deflate (commitSerial treeHash parentHash message))) := by
  refine ⟨?_, ?_, ?_⟩
  · intro content objects
    refine ⟨rfl, ?_, rfl⟩
    simp [writeBlobObject, writeObject, Store.lookup_insert]
  · intro body hb
    unfold treeSerial claimTreeSerial
    rw [utf16Len_eq_utf8Len_of_ascii body hb]
  · intro treeHash parentHash message objects
    refine ⟨rfl, ?_⟩
    simp [writeCommitObject, writeObject, Store.lookup_insert]

/-- Witness for C5 (amended): the ASCII-body clause instantiated at a
concrete ASCII tree body. -/
theorem c5_serialization_amended_witness :
    treeSerial (str "100644 a") = claimTreeSerial (str "100644 a") :=
  c5_serialization_amended.2.1 (str "100644 a") (by decide)

/-- C6: the claim (and §9 of the specification, which calls the
listing-order dependency of the source a latent defect) requires the Tree
hash to be
independent of traversal order.  The two listings hold exactly the same
file entries (as multisets) yet `writeTreeObject` produces different tree
hashes, because entries are concatenated into the tree body in listing
order. -/
theorem c6_tree_hash_order_dependence :
    sampleWdAB.fileEntries.Perm sampleWdBA.fileEntries ∧
    createShaHash (blobSerial (str "x")) = createShaHash (blobSerial (str "x")) ∧
    (writeTreeObject defaultPatterns [] sampleWdAB [] []).1 ≠
      (writeTreeObject defaultPatterns [] sampleWdBA [] []).1 := by
  refine ⟨by decide, rfl, by decide⟩

/-- C7: committing with an empty staging partition fails (the code prints
"No files to commit" and returns) and performs no writes: the returned
state is exactly the input state. -/
theorem c7_empty_commit_rejection (patterns : List JSStr) (workdir : FS)
    (commitMessage : JSStr) (s : RepoState) (h : s.staging = []) :
    commitStagedFiles patterns workdir commitMessage s = (none, s) := by
  simp [commitStagedFiles, h]

/-- Witness for C7: the freshly initialized repository has empty staging. -/
theorem c7_empty_commit_rejection_witness :
    commitStagedFiles defaultPatterns sampleWd (str "m") initState = (none, initState) :=
  c7_empty_commit_rejection defaultPatterns sampleWd (str "m") initState rfl

/-- C8: `createBranch` fails with `BranchExists` (no state change) when the
branch file exists; otherwise it resolves HEAD — taking a direct hash as
is, or following a symbolic HEAD through its named branch file, failing
with `UnresolvableHead` (no state change) when that file is missing — and
writes only the new branch file with the resolved hash; HEAD and the
branch HEAD is on are unchanged. -/
theorem c8_createBranch_behaviour (branchName : JSStr) (s : RepoState) :
    (∀ c, Store.lookup s.refs (str "refs/heads/" ++ branchName) = some c →
        createBranch branchName s = (BranchResult.branchExists, s)) ∧
    (∀ h, Store.lookup s.refs (str "refs/heads/" ++ branchName) = none →
        getHeadReference s.headFile = HeadRef.commit h →
        createBranch branchName s =
          (BranchResult.ok h,
            { s with refs := (s.refs.insert (str "refs/heads/" ++ branchName) (h ++ [10])) })) ∧
    (∀ r content, Store.lookup s.refs (str "refs/heads/" ++ branchName) = none →
        getHeadReference s.headFile = HeadRef.branch r →
        Store.lookup s.refs r = some content →
        createBranch branchName s =
          (BranchResult.ok (jsTrim content),
            { s with refs := (s.refs.insert (str "refs/heads/" ++ branchName)
                (jsTrim content ++ [10])) }) ∧
        Store.lookup (createBranch branchName s).2.refs r = some content) ∧
    (∀ r, Store.lookup s.refs (str "refs/heads/" ++ branchName) = none →
        getHeadReference s.headFile = HeadRef.branch r →
        Store.lookup s.refs r = none →
        createBranch branchName s = (BranchResult.unresolvableHead, s)) := by
  refine ⟨?_, ?_, ?_, ?_⟩
  · intro c hc
    simp [createBranch, hc]
  · intro h hbp hhead
    simp [createBranch, hbp, hhead]
  · intro r content hbp hhead hr
    have hne : (str "refs/heads/" ++ branchName) ≠ r := by
      intro he
      rw [he, hr] at hbp
      cases hbp
    constructor
    · simp [createBranch, hbp, hhead, hr]
    · simp only [createBranch, hbp, hhead, hr]
      simp only [Store.lookup_insert, if_neg hne]
      exact hr
  · intro r hbp hhead hr
    simp [createBranch, hbp, hhead, hr]

/-- Witness for C8: `createBranch("main")` on the initialized repository is
rejected with `BranchExists`; `createBranch("feature")` resolves HEAD
through `refs/heads/main` to the initial commit, writes only the new
branch file and leaves `refs/heads/main` unchanged. -/
theorem c8_createBranch_behaviour_witness :
    createBranch (str "main") initState = (BranchResult.branchExists, initState) ∧
    (createBranch (str "feature") initState =
      (BranchResult.ok (jsTrim (createShaHash initialCommitSerial ++ [10])),
        { initState with refs := (initState.refs.insert (str "refs/heads/" ++ str "feature")
            (jsTrim (createShaHash initialCommitSerial ++ [10]) ++ [10])) }) ∧
      Store.lookup (createBranch (str "feature") initState).2.refs (str "refs/heads/main") =
        some (createShaHash initialCommitSerial ++ [10])) := by
  constructor
  · exact (c8_createBranch_behaviour (str "main") initState).1
      (createShaHash initialCommitSerial ++ [10]) (by decide)
  · exact (c8_createBranch_behaviour (str "feature") initState).2.2.1
      (str "refs/heads/main") (createShaHash initialCommitSerial ++ [10])
      (by decide) (by decide) (by decide)

/-- C9: `checkoutBranch` fails with `BranchNotFound` (state unchanged) when
the branch file does not exist, and otherwise only overwrites HEAD with a
symbolic reference to the branch (refs, objects and staging unchanged). -/
theorem c9_checkoutBranch_behaviour (branchName : JSStr) (s : RepoState) :
    (Store.lookup s.refs (str "refs/heads/" ++ branchName) = none →
      checkoutBranch branchName s = (CheckoutResult.branchNotFound, s)) ∧
    (∀ content, Store.lookup s.refs (str "refs/heads/" ++ branchName) = some content →
      checkoutBranch branchName s =
        (CheckoutResult.ok, { s with headFile := updateHeadToBranch branchName })) := by
  constructor
  · intro h
    simp [checkoutBranch, h]
  · intro content h
    simp [checkoutBranch, h]

/-- Witness for C9: checking out a missing branch fails without moving
HEAD; checking out `main` rewrites HEAD symbolically. -/
theorem c9_checkoutBranch_behaviour_witness :
    checkoutBranch (str "nope") initState = (CheckoutResult.branchNotFound, initState) ∧
    checkoutBranch (str "main") initState =
      (CheckoutResult.ok, { initState with headFile := updateHeadToBranch (str "main") }) := by
  constructor
  · exact (c9_checkoutBranch_behaviour (str "nope") initState).1 (by decide)
  · exact (c9_checkoutBranch_behaviour (str "main") initState).2
      (createShaHash initialCommitSerial ++ [10]) (by decide)

/-- C3: parent chaining.  (a) After any successful commit (made, in
particular, with HEAD on a branch) and a re-stage, a second commit
produces a commit object — stored at its hash — whose parent field is
exactly the hash of the first commit.  (b) When HEAD resolves to no commit
(`headCommitOf s = none`, i.e. no prior commit), a successful commit
produces a commit object with no parent field. -/
theorem c3_parent_chaining :
    (∀ patterns workdir commitMessage s patterns2 workdir2 patterns3 workdir3 msg3 c1,
        (commitStagedFiles patterns workdir commitMessage s).1 = some c1 →
        ∃ t2, (commitStagedFiles patterns3 workdir3 msg3
              (stageWorkingTree patterns2 workdir2
                (commitStagedFiles patterns workdir commitMessage s).2).2).1 =
            some (createShaHash (commitSerial t2 (some c1) msg3)) ∧
          Store.lookup (commitStagedFiles patterns3 workdir3 msg3
              (stageWorkingTree patterns2 workdir2
                (commitStagedFiles patterns workdir commitMessage s).2).2).2.objects
            (createShaHash (commitSerial t2 (some c1) msg3)) =
            some (deflate (commitSerial t2 (some c1) msg3))) ∧
    (∀ patterns workdir commitMessage s,
        headCommitOf s = none → s.staging.isEmpty = false →
        ∃ t, (commitStagedFiles patterns workdir commitMessage s).1 =
            some (createShaHash (commitSerial t none commitMessage)) ∧
          Store.lookup (commitStagedFiles patterns workdir commitMessage s).2.objects
            (createShaHash (commitSerial t none commitMessage)) =
            some (deflate (commitSerial t none commitMessage))) := by
  constructor
  · intro patterns workdir commitMessage s patterns2 workdir2 patterns3 workdir3 msg3 c1 h1
    by_cases hie : s.staging.isEmpty
    · rw [commitStagedFiles_fst_none patterns workdir commitMessage s hie] at h1
      cases h1
    · have hie2 : s.staging.isEmpty = false := by
        revert hie; cases s.staging.isEmpty <;> simp
      rw [commitStagedFiles_ne patterns workdir commitMessage s hie2] at h1 ⊢
      simp only [Option.some.injEq] at h1
      subst h1
      set cser1 := commitSerial
        (writeTreeObject patterns [] workdir (s.staging ++ s.objects) []).1
        (commitParentOf (getHeadReference s.headFile)) commitMessage with hcser1
      set s2 := (stageWorkingTree patterns2 workdir2
        ({ headFile := updateHeadToCommit (createShaHash cser1)
           refs := s.refs
           objects := Store.insert
             (writeTreeObject patterns [] workdir (s.staging ++ s.objects) []).2.1
             (createShaHash cser1) (deflate cser1)
           staging := [] } : RepoState)).2 with hs2
      have hhead : getHeadReference s2.headFile = HeadRef.commit (createShaHash cser1) := by
        rw [hs2, stageWorkingTree_headFile]
        exact getHeadReference_hash_of_commit cser1
      have hie3 : s2.staging.isEmpty = false := by
        rw [hs2]; exact stageWorkingTree_staging_isEmpty _ _ _
      rw [commitStagedFiles_ne patterns3 workdir3 msg3 s2 hie3, hhead]
      refine ⟨(writeTreeObject patterns3 [] workdir3 (s2.staging ++ s2.objects) []).1,
        rfl, ?_⟩
      simp [Store.lookup_insert, commitParentOf]
  · intro patterns workdir commitMessage s hnone hie
    have hbranch : ∃ r, getHeadReference s.headFile = HeadRef.branch r := by
      cases hh : getHeadReference s.headFile with
      | commit hc =>
        unfold headCommitOf at hnone
        rw [hh] at hnone
        cases hnone
      | branch r => exact ⟨r, rfl⟩
    obtain ⟨r, hr⟩ := hbranch
    rw [commitStagedFiles_ne patterns workdir commitMessage s hie, hr]
    refine ⟨(writeTreeObject patterns [] workdir (s.staging ++ s.objects) []).1, rfl, ?_⟩
    simp [Store.lookup_insert, commitParentOf]

/-- Witness for C3: both clauses instantiated on the initialized repository
(with its main-branch symbolic HEAD and a concrete HEAD-unresolvable
state), discharging every hypothesis by computation. -/
theorem c3_parent_chaining_witness :
    (∃ t2, (commitStagedFiles defaultPatterns sampleWd2 (str "m2")
          (stageWorkingTree defaultPatterns sampleWd2
            (commitStagedFiles defaultPatterns sampleWd (str "m") sampleStaged).2).2).1 =
        some (createShaHash (commitSerial t2
          (some ((commitStagedFiles defaultPatterns sampleWd (str "m") sampleStaged).1.getD []))
          (str "m2"))) ∧
      Store.lookup (commitStagedFiles defaultPatterns sampleWd2 (str "m2")
          (stageWorkingTree defaultPatterns sampleWd2
            (commitStagedFiles defaultPatterns sampleWd (str "m") sampleStaged).2).2).2.objects
        (createShaHash (commitSerial t2
          (some ((commitStagedFiles defaultPatterns sampleWd (str "m") sampleStaged).1.getD []))
          (str "m2"))) =
        some (deflate (commitSerial t2
          (some ((commitStagedFiles defaultPatterns sampleWd (str "m") sampleStaged).1.getD []))
          (str "m2")))) ∧
    (∃ t, (commitStagedFiles defaultPatterns sampleWd (str "m")
          { sampleStaged with headFile := str "ref: refs/heads/dev" ++ [10] }).1 =
        some (createShaHash (commitSerial t none (str "m"))) ∧
      Store.lookup (commitStagedFiles defaultPatterns sampleWd (str "m")
          { sampleStaged with headFile := str "ref: refs/heads/dev" ++ [10] }).2.objects
        (createShaHash (commitSerial t none (str "m"))) =
        some (deflate (commitSerial t none (str "m")))) := by
  constructor
  · exact c3_parent_chaining.1 defaultPatterns sampleWd (str "m") sampleStaged
      defaultPatterns sampleWd2 defaultPatterns sampleWd2 (str "m2")
      ((commitStagedFiles defaultPatterns sampleWd (str "m") sampleStaged).1.getD [])
      (by decide)
  · exact c3_parent_chaining.2 defaultPatterns sampleWd (str "m")
      { sampleStaged with headFile := str "ref: refs/heads/dev" ++ [10] }
      (by decide) (by decide)

/-- C4, counterexample: the claim says a name present in both trees whose
mode or child hash differ is emitted as `modified`.  Two single-entry
trees share the entry name `a` with identical mode `100644` and different
child hashes, yet the diff emits nothing: the parser attaches each child
hash to the mode token of the following entry (and drops the last one), so a
change in the own child hash of an entry alone is not detected. -/
theorem c4_diff_classification_counterexample :
    compareTreeObjects
      (Store.insert (Store.insert []
          (createShaHash (treeSerial (str "100644 a" ++ [0] ++ createShaHash (blobSerial (str "x")))))
          (deflate (treeSerial (str "100644 a" ++ [0] ++ createShaHash (blobSerial (str "x"))))))
        (createShaHash (treeSerial (str "100644 a" ++ [0] ++ createShaHash (blobSerial (str "y")))))
        (deflate (treeSerial (str "100644 a" ++ [0] ++ createShaHash (blobSerial (str "y"))))))
      (createShaHash (treeSerial (str "100644 a" ++ [0] ++ createShaHash (blobSerial (str "x")))))
      (createShaHash (treeSerial (str "100644 a" ++ [0] ++ createShaHash (blobSerial (str "y")))))
      = some [] ∧
    createShaHash (blobSerial (str "x")) ≠ createShaHash (blobSerial (str "y")) := by
  constructor
  · decide
  · decide

/-- C4, amended: over the union of the parsed entry names, the diff emits
`added` exactly for names absent from the first parsed tree, `deleted`
exactly for names present in the first and absent from the second,
`modified` exactly for names present in both whose stored "mode" strings
differ — where the stored string of every entry after the first is the
child hash of the previous entry concatenated with the mode, so the own
child hash of an entry is compared only through the token of its
successor, and the hash of the last entry not at all — omits names with
equal stored strings, and emits each name at most once. -/
theorem c4_diff_classification_amended (store : Store) (hash1 hash2 : JSStr)
    (t1 t2 : List (JSStr × JSStr))
    (e1 : parseTreeObject store hash1 = some t1)
    (e2 : parseTreeObject store hash2 = some t2) :
    ∃ out, compareTreeObjects store hash1 hash2 = some out ∧
      (∀ n, (n, DiffStatus.added) ∈ out ↔
          Store.lookup t1 n = none ∧ n ∈ t2.map Prod.fst) ∧
      (∀ n, (n, DiffStatus.deleted) ∈ out ↔
          Store.lookup t1 n ≠ none ∧ Store.lookup t2 n = none) ∧
      (∀ n, (n, DiffStatus.modified) ∈ out ↔
          ∃ v1 v2, Store.lookup t1 n = some v1 ∧ Store.lookup t2 n = some v2 ∧ v1 ≠ v2) ∧
      (out.map Prod.fst).Nodup := by
  have hUmem : ∀ a, a ∈ jsSetDedup (t1.map Prod.fst ++ t2.map Prod.fst) ↔
      (a ∈ t1.map Prod.fst ∨ a ∈ t2.map Prod.fst) := by
    intro a
    rw [mem_jsSetDedup, List.mem_append]
  refine ⟨(jsSetDedup (t1.map Prod.fst ++ t2.map Prod.fst)).filterMap (diffClassify t1 t2),
    ?_, ?_, ?_, ?_, ?_⟩
  · unfold compareTreeObjects
    rw [e1, e2]
  · intro n
    rw [List.mem_filterMap]
    constructor
    · rintro ⟨f, hfU, hcl⟩
      obtain ⟨hfn, hnone⟩ := (diffClassify_eq_added t1 t2 f n).mp hcl
      subst hfn
      refine ⟨hnone, ?_⟩
      rcases (hUmem f).mp hfU with hk1 | hk2
      · exact absurd hk1 ((store_lookup_eq_none_iff t1 f).mp hnone)
      · exact hk2
    · rintro ⟨hnone, hk2⟩
      exact ⟨n, (hUmem n).mpr (Or.inr hk2),
        (diffClassify_eq_added t1 t2 n n).mpr ⟨rfl, hnone⟩⟩
  · intro n
    rw [List.mem_filterMap]
    constructor
    · rintro ⟨f, hfU, hcl⟩
      obtain ⟨hfn, h1ne, h2none⟩ := (diffClassify_eq_deleted t1 t2 f n).mp hcl
      subst hfn
      exact ⟨h1ne, h2none⟩
    · rintro ⟨h1ne, h2none⟩
      have hk1 : n ∈ t1.map Prod.fst := by
        by_contra hcon
        exact h1ne ((store_lookup_eq_none_iff t1 n).mpr hcon)
      exact ⟨n, (hUmem n).mpr (Or.inl hk1),
        (diffClassify_eq_deleted t1 t2 n n).mpr ⟨rfl, h1ne, h2none⟩⟩
  · intro n
    rw [List.mem_filterMap]
    constructor
    · rintro ⟨f, hfU, hcl⟩
      obtain ⟨hfn, hex⟩ := (diffClassify_eq_modified t1 t2 f n).mp hcl
      subst hfn
      exact hex
    · rintro ⟨v1, v2, hv1, hv2, hne⟩
      have hk1 : n ∈ t1.map Prod.fst := by
        by_contra hcon
        rw [(store_lookup_eq_none_iff t1 n).mpr hcon] at hv1
        cases hv1
      exact ⟨n, (hUmem n).mpr (Or.inl hk1),
        (diffClassify_eq_modified t1 t2 n n).mpr ⟨rfl, v1, v2, hv1, hv2, hne⟩⟩
  · exact nodup_map_fst_filterMap (diffClassify t1 t2) (diffClassify_fst t1 t2) _
      (nodup_jsSetDedup _)

/-- Witness for C4 (amended): instantiated on two concrete trees — one
entry `a`, versus entries `a` and `b` — whose parse maps are computed and
supplied literally, discharging both parse hypotheses by computation. -/
theorem c4_diff_classification_amended_witness :
    ∃ out, compareTreeObjects
        (Store.insert (Store.insert []
            (createShaHash (treeSerial (str "100644 a" ++ [0] ++ createShaHash (blobSerial (str "x")))))
            (deflate (treeSerial (str "100644 a" ++ [0] ++ createShaHash (blobSerial (str "x"))))))
          (createShaHash (treeSerial (str "100644 a" ++ [0] ++ createShaHash (blobSerial (str "x")) ++
            str "100644 b" ++ [0] ++ createShaHash (blobSerial (str "y")))))
          (deflate (treeSerial (str "100644 a" ++ [0] ++ createShaHash (blobSerial (str "x")) ++
            str "100644 b" ++ [0] ++ createShaHash (blobSerial (str "y"))))))
        (createShaHash (treeSerial (str "100644 a" ++ [0] ++ createShaHash (blobSerial (str "x")))))
        (createShaHash (treeSerial (str "100644 a" ++ [0] ++ createShaHash (blobSerial (str "x")) ++
          str "100644 b" ++ [0] ++ createShaHash (blobSerial (str "y"))))) = some out ∧
      (∀ n, (n, DiffStatus.added) ∈ out ↔
          Store.lookup [(str "a", str "100644")] n = none ∧
          n ∈ [(str "a", str "100644"),
            (str "b", createShaHash (blobSerial (str "x")) ++ str "100644")].map Prod.fst) ∧
      (∀ n, (n, DiffStatus.deleted) ∈ out ↔
          Store.lookup [(str "a", str "100644")] n ≠ none ∧
          Store.lookup [(str "a", str "100644"),
            (str "b", createShaHash (blobSerial (str "x")) ++ str "100644")] n = none) ∧
      (∀ n, (n, DiffStatus.modified) ∈ out ↔
          ∃ v1 v2, Store.lookup [(str "a", str "100644")] n = some v1 ∧
            Store.lookup [(str "a", str "100644"),
              (str "b", createShaHash (blobSerial (str "x")) ++ str "100644")] n = some v2 ∧
            v1 ≠ v2) ∧
      (out.map Prod.fst).Nodup :=
  c4_diff_classification_amended _ _ _
    [(str "a", str "100644")]
    [(str "a", str "100644"), (str "b", createShaHash (blobSerial (str "x")) ++ str "100644")]
    (by decide) (by decide)

/-- C10, counterexample: the claim says the tree hash recorded in a new
commit always refers to a tree present in the permanent partition.  Stage
a one-file tree, change the file, then commit: the commit object records
the hash of the re-built tree (parent `none` since HEAD is symbolic), but that
tree was written to staging and deleted with it, so it is absent from the
permanent partition. -/
theorem c10_commit_closure_counterexample :
    (commitStagedFiles defaultPatterns sampleWd2 (str "m") sampleStaged).1 =
      some (createShaHash (commitSerial
        (writeTreeObject defaultPatterns [] sampleWd2
          (sampleStaged.staging ++ sampleStaged.objects) []).1 none (str "m"))) ∧
    Store.lookup (commitStagedFiles defaultPatterns sampleWd2 (str "m") sampleStaged).2.objects
      (writeTreeObject defaultPatterns [] sampleWd2
        (sampleStaged.staging ++ sampleStaged.objects) []).1 = none := by
  constructor
  · decide
  · decide

/-- C10, amended: after a successful commit the new commit records the
hash of the tree re-built from the working directory; that tree is present
in the permanent partition provided its hash was already present in the
staging or permanent partition when the commit began (as when the working
tree is unchanged since the last stage) — the re-built tree objects
themselves are deleted together with the staging partition. -/
theorem c10_commit_closure_amended (patterns : List JSStr) (workdir : FS)
    (commitMessage : JSStr) (s : RepoState) (h : s.staging.isEmpty = false)
    (hmem : Store.mem (s.staging ++ s.objects)
      (writeTreeObject patterns [] workdir (s.staging ++ s.objects) []).1) :
    ∃ p, (commitStagedFiles patterns workdir commitMessage s).1 =
        some (createShaHash (commitSerial
          (writeTreeObject patterns [] workdir (s.staging ++ s.objects) []).1 p commitMessage)) ∧
      Store.mem (commitStagedFiles patterns workdir commitMessage s).2.objects
        (writeTreeObject patterns [] workdir (s.staging ++ s.objects) []).1 := by
  rw [commitStagedFiles_ne patterns workdir commitMessage s h]
  refine ⟨commitParentOf (getHeadReference s.headFile), rfl, ?_⟩
  apply Store.mem_insert
  show Store.mem (writeTreeEntries patterns [] workdir (s.staging ++ s.objects) []).2.1 _
  exact writeTreeEntries_objects_mono patterns workdir [] (s.staging ++ s.objects) [] _ hmem

/-- Witness for C10 (amended): committing with the working tree unchanged
since the stage; the staged root tree makes the membership hypothesis
computable. -/
theorem c10_commit_closure_amended_witness :
    ∃ p, (commitStagedFiles defaultPatterns sampleWd (str "m") sampleStaged).1 =
        some (createShaHash (commitSerial
          (writeTreeObject defaultPatterns [] sampleWd
            (sampleStaged.staging ++ sampleStaged.objects) []).1 p (str "m"))) ∧
      Store.mem (commitStagedFiles defaultPatterns sampleWd (str "m") sampleStaged).2.objects
        (writeTreeObject defaultPatterns [] sampleWd
          (sampleStaged.staging ++ sampleStaged.objects) []).1 :=
  c10_commit_closure_amended defaultPatterns sampleWd (str "m") sampleStaged
    (by decide) (by decide)

end CustomGit
